import Mathlib

/-!
# Fenestro — verification of the IPC / shared-state subsystem

Shallow embedding of the fenestro application's shared application state
(`App`, `FileEntry`, `sortFilesByName`, `AddFile`, `ReplaceFileContent`,
`SelectFile` from `app.go` and `files.go`), its IPC command envelope
(`IPCCommand` with its JSON encoding from `ipc.go`), and the socket
lifecycle operations (`NewIPCServer`, `TrySendToExisting`,
`IPCServer.Close`), together with theorems settling the specification
claims about them.
-/

/-! ## Data model and operations -/

/-- A file entry in the sidebar, as in `files.go`: name, path (empty for
stdin content) and raw HTML content. -/
structure FileEntry where
  name : String
  path : String
  content : String
deriving Repr, DecidableEq, Inhabited

/-- Strict lexicographic comparison of character lists, the order Go uses
for `string <` (bytewise comparison agrees with code-point comparison on
valid UTF-8). Structurally recursive so that concrete instances evaluate. -/
def charsLtB : List Char → List Char → Bool
  | _, [] => false
  | [], _ :: _ => true
  | c :: cs, d :: ds => if c < d then true else if d < c then false else charsLtB cs ds

/-- Strict comparison of strings by their character data (Go `a < b`). -/
def strLtB (a b : String) : Bool := charsLtB a.data b.data

/-- Ordering of entries used by `sortFilesByName`: entry `a` may precede
entry `b` when `b.name < a.name` fails — the sortedness relation induced by
Go's comparator `files[i].Name < files[j].Name`. -/
def nameLe (a b : FileEntry) : Prop := strLtB b.name a.name = false

instance : DecidableRel nameLe := fun a b =>
  inferInstanceAs (Decidable (strLtB b.name a.name = false))

/-- `sortFilesByName` from `files.go`: sorts the entry list alphabetically
by name (Go uses an unspecified-order `sort.Slice`; we model it with a
sort ordered by the same comparator). -/
def sortFilesByName (files : List FileEntry) : List FileEntry :=
  files.insertionSort nameLe

/-- The list-of-entries invariant claimed by the spec: entries are in
non-decreasing order of `name`. -/
def sortedByName (files : List FileEntry) : Prop :=
  List.Sorted nameLe files

instance : DecidablePred sortedByName := fun l =>
  inferInstanceAs (Decidable (List.Pairwise nameLe l))

/-- The mutable application state from `app.go`: the ordered entry list and
the current-selection index (a Go `int`, so modelled as `Int`; nothing
clamps it to the list bounds). The other `App` fields (window id, config,
cached geometry) are not touched by the operations under study. -/
structure App where
  files : List FileEntry
  currentIndex : Int
deriving Repr, DecidableEq

/-- `SelectFile` from `app.go`: with `index` outside `[0, len(files))` it
returns `""` and changes nothing; otherwise it records `index` as current
and returns that entry's content. -/
def SelectFile (a : App) (index : Int) : String × App :=
  if index < 0 ∨ (a.files.length : Int) ≤ index then ("", a)
  else ((a.files.getD index.toNat default).content, { a with currentIndex := index })

/-- `AddFile` from `app.go` (state part): append the entry and re-sort by
name. The selection index field is not written by this operation; the
emitted `file-added` event is frontend notification, not state. -/
def AddFile (a : App) (entry : FileEntry) : App :=
  { a with files := sortFilesByName (a.files ++ [entry]) }

/-- The in-place branch of `ReplaceFileContent`: walk the list and, at the
first entry whose `path` equals the argument, overwrite its content and —
only when the `name` argument is non-empty — its name; report the updated
list and the index of the updated entry, or `none` when no entry matches. -/
def replaceFirst (path content name : String) : List FileEntry → Option (List FileEntry × Nat)
  | [] => none
  | f :: fs =>
    if f.path = path then
      some (({ f with content := content, name := if name = "" then f.name else name }) :: fs, 0)
    else
      match replaceFirst path content name fs with
      | some (fs', i) => some (f :: fs', i + 1)
      | none => none

/-- `ReplaceFileContent` from `app.go` (state part): update the first entry
whose path matches in place and select it; when no entry matches, append a
new entry built from the arguments, re-sort, and select the first entry of
the sorted list whose path matches (the just-appended one). -/
def ReplaceFileContent (a : App) (path content name : String) : App :=
  match replaceFirst path content name a.files with
  | some (fs, i) => { files := fs, currentIndex := (i : Int) }
  | none =>
    let fs := sortFilesByName (a.files ++ [{ name := name, path := path, content := content }])
    let idx : Int :=
      match fs.findIdx? (fun f => f.path == path) with
      | some i => (i : Int)
      | none => a.currentIndex
    { files := fs, currentIndex := idx }

/-! ## The IPC command envelope and its JSON wire format

`ipc.go` serializes `IPCCommand` with `encoding/json`. We model the wire
format at the level of JSON values: the encoder emits the struct's fields
under its json tags in declaration order, and the decoder mirrors Go's
`json.Unmarshal` into the struct — any JSON object is accepted, absent or
`null` fields keep the zero value, and a present field of the wrong type
is a decode error. -/

/-- A JSON value. -/
inductive Json where
  | null
  | bool (b : Bool)
  | num (n : Int)
  | str (s : String)
  | arr (elems : List Json)
  | obj (fields : List (String × Json))

/-- The IPC command from `ipc.go`: a cmd tag (`"add-file"` or `"replace"`),
an entry payload for add-file, and path/content/name fields for replace. -/
structure IPCCommand where
  cmd : String
  entry : FileEntry
  path : String
  content : String
  name : String
deriving Repr, DecidableEq, Inhabited

/-- Field lookup in a JSON object; Go's `json.Unmarshal` keeps the last of
any duplicate keys. -/
def jsonLookup (fields : List (String × Json)) (key : String) : Option Json :=
  (fields.reverse.find? (fun p => p.1 == key)).map (fun p => p.2)

/-- Read a string-typed struct field: an absent or `null` field keeps the
Go zero value `""`; a non-string value is a type error. -/
def getStringField (fields : List (String × Json)) (key : String) : Option String :=
  match jsonLookup fields key with
  | none => some ""
  | some Json.null => some ""
  | some (Json.str s) => some s
  | some _ => none

/-- `json.Unmarshal` of a `FileEntry` (fields tagged name/path/content). -/
def decodeFileEntry : Json → Option FileEntry
  | Json.obj fields => do
    let name ← getStringField fields "name"
    let path ← getStringField fields "path"
    let content ← getStringField fields "content"
    pure ⟨name, path, content⟩
  | Json.null => some ⟨"", "", ""⟩
  | _ => none

/-- `json.Unmarshal` of an `IPCCommand`: any JSON object (or `null`)
decodes successfully as long as the present fields have the right types;
no validation of the `cmd` tag happens at decode time. -/
def decodeIPCCommand : Json → Option IPCCommand
  | Json.obj fields => do
    let cmd ← getStringField fields "cmd"
    let entry ←
      match jsonLookup fields "entry" with
      | none => some (⟨"", "", ""⟩ : FileEntry)
      | some Json.null => some (⟨"", "", ""⟩ : FileEntry)
      | some j => decodeFileEntry j
    let path ← getStringField fields "path"
    let content ← getStringField fields "content"
    let name ← getStringField fields "name"
    pure ⟨cmd, entry, path, content, name⟩
  | Json.null => some ⟨"", ⟨"", "", ""⟩, "", "", ""⟩
  | _ => none

/-- `json.Marshal` of a `FileEntry`. -/
def encodeFileEntry (e : FileEntry) : Json :=
  Json.obj [("name", Json.str e.name), ("path", Json.str e.path), ("content", Json.str e.content)]

/-- `json.Marshal` of an `IPCCommand` (struct fields in declaration order
under their json tags). -/
def encodeIPCCommand (c : IPCCommand) : Json :=
  Json.obj [("cmd", Json.str c.cmd), ("entry", encodeFileEntry c.entry),
    ("path", Json.str c.path), ("content", Json.str c.content), ("name", Json.str c.name)]

/-- The dispatch switch of `handleConnection` in `ipc.go`: `"add-file"`
runs `AddFile`, `"replace"` runs `ReplaceFileContent`, and any other tag
falls through the switch leaving the state untouched. -/
def handleCommand (a : App) (c : IPCCommand) : App :=
  match c.cmd with
  | "add-file" => AddFile a c.entry
  | "replace" => ReplaceFileContent a c.path c.content c.name
  | _ => a

/-! ## Socket lifecycle

The filesystem facts the socket code manipulates, modelled as the set of
paths at which a socket file exists and the set of addresses with a live
bound listener. -/

/-- Socket-relevant world state: which paths currently hold a socket file,
and which addresses have a live listener bound. -/
structure SockWorld where
  sockFiles : List String
  listeners : List String
deriving Repr, DecidableEq

/-- `os.Remove(path)` as used by the socket code: best-effort removal of
the file at `path` (errors ignored); a live listener bound there is not
terminated, it merely loses its filesystem entry. -/
def osRemove (path : String) (w : SockWorld) : SockWorld :=
  { w with sockFiles := w.sockFiles.filter (fun p => !(p == path)) }

/-- `net.Listen("unix", addr)`: binding fails with "address already in
use" exactly when a file already exists at `addr`; otherwise it creates
the socket file and registers a live listener. -/
def netListenUnix (addr : String) (w : SockWorld) : Except String SockWorld :=
  if addr ∈ w.sockFiles then Except.error "address already in use"
  else Except.ok { sockFiles := addr :: w.sockFiles, listeners := addr :: w.listeners }

/-- The dispatcher's lifecycle fields from `ipc.go` (listener identity is
carried by `socketPath` in the world). -/
structure IPCServer where
  socketPath : String
  useTimeout : Bool
  closed : Bool
  timerActive : Bool
deriving Repr, DecidableEq

/-- `NewIPCServer` from `ipc.go`: ensure the socket directory, remove any
existing file at the socket path, bind the listener, and start the
grouping timeout timer when `useTimeout` is set. -/
def NewIPCServer (addr : String) (useTimeout : Bool) (w : SockWorld) :
    Except String (IPCServer × SockWorld) :=
  match netListenUnix addr (osRemove addr w) with
  | Except.error e => Except.error ("failed to create socket: " ++ e)
  | Except.ok w' =>
    Except.ok ({ socketPath := addr, useTimeout := useTimeout, closed := false,
                 timerActive := useTimeout }, w')

/-- `TrySendToExisting` from `ipc.go`. The outcomes of the two external
calls — `net.DialTimeout` and `Encoder.Encode` — are inputs: on a failed
dial the file at the address is removed (best-effort) and the call reports
false; after a successful dial the file is never removed, and the call
reports whether the write succeeded. -/
def TrySendToExisting (connectOk writeOk : Bool) (addr : String) (w : SockWorld) :
    Bool × SockWorld :=
  if !connectOk then (false, osRemove addr w)
  else if !writeOk then (false, w)
  else (true, w)

/-- `Close` from `ipc.go`: a no-op when already closed; otherwise mark
closed, stop the timeout timer, close the listener, and remove the socket
file. -/
def IPCServer.Close (p : IPCServer × SockWorld) : IPCServer × SockWorld :=
  if p.1.closed then p
  else ({ p.1 with closed := true, timerActive := false },
    { sockFiles := p.2.sockFiles.filter (fun q => !(q == p.1.socketPath)),
      listeners := p.2.listeners.filter (fun q => !(q == p.1.socketPath)) })

/-! ## Order facts about the name comparator -/

theorem charsLtB_asymm : ∀ x y : List Char, charsLtB x y = true → charsLtB y x = false
  | [], [] => by simp [charsLtB]
  | [], _ :: _ => by intro _; simp [charsLtB]
  | _ :: _, [] => by simp [charsLtB]
  | c :: cs, d :: ds => by
    intro h
    simp only [charsLtB] at h ⊢
    by_cases hcd : c < d
    · simp [hcd, lt_asymm hcd]
    · by_cases hdc : d < c
      · simp [hcd, hdc] at h
      · simp only [hcd, hdc, if_false] at h ⊢
        exact charsLtB_asymm cs ds h

/-- Weak transitivity of lexicographic comparison: if `x < z` then `x < y`
or `y < z` for any `y`. -/
theorem charsLtB_lt_or_lt : ∀ x y z : List Char, charsLtB x z = true →
    charsLtB x y = true ∨ charsLtB y z = true
  | _, _, [] => by simp [charsLtB]
  | [], [], _ :: _ => by intro h; exact Or.inr h
  | [], _ :: _, _ :: _ => by intro _; exact Or.inl (by simp [charsLtB])
  | _ :: _, [], _ :: _ => by intro _; exact Or.inr (by simp [charsLtB])
  | c :: cs, e :: es, d :: ds => by
    intro h
    simp only [charsLtB] at h ⊢
    by_cases hce : c < e
    · exact Or.inl (by simp [hce])
    · by_cases hec : e < c
      · refine Or.inr ?_
        by_cases hcd : c < d
        · simp [lt_trans hec hcd]
        · by_cases hdc : d < c
          · simp [hcd, hdc] at h
          · have hcd' : c = d := le_antisymm (le_of_not_lt hdc) (le_of_not_lt hcd)
            simp [hcd' ▸ hec]
      · have hce' : c = e := le_antisymm (le_of_not_lt hec) (le_of_not_lt hce)
        subst hce'
        by_cases hcd : c < d
        · exact Or.inr (by simp [hcd])
        · by_cases hdc : d < c
          · simp [hcd, hdc] at h
          · simp only [hcd, hdc, if_false] at h
            rcases charsLtB_lt_or_lt cs es ds h with h2 | h2
            · exact Or.inl (by simp [lt_irrefl, h2])
            · exact Or.inr (by simp [hcd, hdc, h2])

instance : IsTotal FileEntry nameLe := by
  refine ⟨fun a b => ?_⟩
  by_cases h : strLtB b.name a.name = true
  · exact Or.inr (charsLtB_asymm _ _ h)
  · exact Or.inl (by simpa [nameLe] using h)

instance : IsTrans FileEntry nameLe := by
  refine ⟨fun a b c hab hbc => ?_⟩
  by_contra h
  have h' : charsLtB c.name.data a.name.data = true := by
    simpa [nameLe, strLtB] using h
  rcases charsLtB_lt_or_lt c.name.data b.name.data a.name.data h' with h1 | h1
  · exact absurd h1 (by simpa [nameLe, strLtB] using hbc)
  · exact absurd h1 (by simpa [nameLe, strLtB] using hab)

/-! ## Helper lemmas -/

theorem sortFilesByName_sorted (files : List FileEntry) :
    sortedByName (sortFilesByName files) :=
  List.sorted_insertionSort nameLe files

theorem sortFilesByName_length (files : List FileEntry) :
    (sortFilesByName files).length = files.length :=
  (List.perm_insertionSort nameLe files).length_eq

theorem sortedByName_iff_names (l : List FileEntry) :
    sortedByName l ↔
      List.Pairwise (fun s t : String => strLtB t s = false) (l.map FileEntry.name) := by
  unfold sortedByName List.Sorted
  rw [List.pairwise_map]
  exact Iff.rfl

theorem replaceFirst_none (p c n : String) :
    ∀ l : List FileEntry, (∀ f ∈ l, f.path ≠ p) → replaceFirst p c n l = none
  | [] => fun _ => rfl
  | f :: fs => by
    intro h
    have hf : f.path ≠ p := h f (List.mem_cons_self f fs)
    simp only [replaceFirst, if_neg hf]
    rw [replaceFirst_none p c n fs (fun g hg => h g (List.mem_cons_of_mem f hg))]

theorem replaceFirst_names (p c : String) :
    ∀ (l fs : List FileEntry) (i : Nat), replaceFirst p c "" l = some (fs, i) →
      fs.map FileEntry.name = l.map FileEntry.name
  | [], _, _ => by intro h; simp [replaceFirst] at h
  | f :: l, fs, i => by
    intro h
    simp only [replaceFirst] at h
    by_cases hf : f.path = p
    · rw [if_pos hf] at h
      injection h with h'
      injection h' with h1 h2
      subst h1
      simp
    · rw [if_neg hf] at h
      cases hrec : replaceFirst p c "" l with
      | none => rw [hrec] at h; exact absurd h (by simp)
      | some pr =>
        obtain ⟨fs', i'⟩ := pr
        rw [hrec] at h
        injection h with h'
        injection h' with h1 h2
        subst h1
        simp [replaceFirst_names p c l fs' i' hrec]

theorem replaceFirst_paths (p c n : String) :
    ∀ (l fs : List FileEntry) (i : Nat), replaceFirst p c n l = some (fs, i) →
      fs.map FileEntry.path = l.map FileEntry.path
  | [], _, _ => by intro h; simp [replaceFirst] at h
  | f :: l, fs, i => by
    intro h
    simp only [replaceFirst] at h
    by_cases hf : f.path = p
    · rw [if_pos hf] at h
      injection h with h'
      injection h' with h1 h2
      subst h1
      simp
    · rw [if_neg hf] at h
      cases hrec : replaceFirst p c n l with
      | none => rw [hrec] at h; exact absurd h (by simp)
      | some pr =>
        obtain ⟨fs', i'⟩ := pr
        rw [hrec] at h
        injection h with h'
        injection h' with h1 h2
        subst h1
        simp [replaceFirst_paths p c n l fs' i' hrec]

theorem replaceFirst_isSome (p c n : String) :
    ∀ l : List FileEntry, (∃ f ∈ l, f.path = p) → (replaceFirst p c n l).isSome = true
  | [] => by intro h; simp at h
  | f :: l => by
    intro h
    simp only [replaceFirst]
    by_cases hf : f.path = p
    · simp [hf]
    · rw [if_neg hf]
      rcases h with ⟨g, hg, hgp⟩
      rcases List.mem_cons.mp hg with rfl | hg'
      · exact absurd hgp hf
      · have := replaceFirst_isSome p c n l ⟨g, hg', hgp⟩
        cases hrec : replaceFirst p c n l with
        | none => rw [hrec] at this; simp at this
        | some pr => obtain ⟨fs', i'⟩ := pr; simp

theorem replaceFirst_append (p c n : String) (f : FileEntry) (l₂ : List FileEntry)
    (hf : f.path = p) :
    ∀ l₁ : List FileEntry, (∀ g ∈ l₁, g.path ≠ p) →
      replaceFirst p c n (l₁ ++ f :: l₂) =
        some (l₁ ++ ({ f with content := c, name := if n = "" then f.name else n }) :: l₂,
          l₁.length)
  | [] => by
    intro _
    simp [replaceFirst, hf]
  | g :: l₁ => by
    intro h
    have hg : g.path ≠ p := h g (List.mem_cons_self g l₁)
    have hrec := replaceFirst_append p c n f l₂ hf l₁
      (fun g' hg' => h g' (List.mem_cons_of_mem g hg'))
    simp only [List.cons_append, replaceFirst, if_neg hg, List.append_eq, hrec]
    simp

theorem close_fst_closed (s : IPCServer) (w : SockWorld) :
    (IPCServer.Close (s, w)).1.closed = true := by
  by_cases h : s.closed <;> simp [IPCServer.Close, h]

theorem close_close (s : IPCServer) (w : SockWorld) :
    IPCServer.Close (IPCServer.Close (s, w)) = IPCServer.Close (s, w) := by
  by_cases h : s.closed <;> simp [IPCServer.Close, h]

theorem close_iterate (s : IPCServer) (w : SockWorld) :
    ∀ m : Nat, IPCServer.Close^[m + 1] (s, w) = IPCServer.Close (s, w) := by
  intro m
  induction m with
  | zero => simp
  | succ k ih => rw [Function.iterate_succ_apply', ih, close_close]

/-! ## Claims -/

/-- C9: `AddFile` leaves the stored current-selection index unchanged; it
mutates only the entry list, by appending the entry and re-sorting, and
never writes the selection field (even though re-sorting may change which
entry that unchanged index denotes). -/
theorem C9_addFile_preserves_index (a : App) (e : FileEntry) :
    (AddFile a e).currentIndex = a.currentIndex ∧
    (AddFile a e).files = sortFilesByName (a.files ++ [e]) :=
  ⟨rfl, rfl⟩

/-- C10: `SelectFile` with an index outside `[0, length)` returns the
empty string and leaves the whole state (entry list and selection index)
unchanged; with an index inside the bounds it records the index as current
and returns the content of the entry at that position. -/
theorem C10_selectFile_bounds (a : App) (i : Int) :
    ((i < 0 ∨ (a.files.length : Int) ≤ i) → SelectFile a i = ("", a)) ∧
    (0 ≤ i → i < (a.files.length : Int) →
      SelectFile a i =
        ((a.files.getD i.toNat default).content, { a with currentIndex := i })) := by
  constructor
  · intro h
    simp only [SelectFile, if_pos h]
  · intro h1 h2
    have h3 : ¬ (i < 0 ∨ (a.files.length : Int) ≤ i) := by
      push_neg
      exact ⟨h1, h2⟩
    simp only [SelectFile, if_neg h3]

/-- C10 witness: out-of-range selection (index 5 of a 2-entry list) is a
no-op returning `""`; in-range selection (index 1) selects and returns
that entry's content. -/
theorem C10_selectFile_witness :
    SelectFile ⟨[⟨"a", "/a", "x"⟩, ⟨"b", "/b", "y"⟩], 0⟩ 5 =
      ("", ⟨[⟨"a", "/a", "x"⟩, ⟨"b", "/b", "y"⟩], 0⟩) ∧
    SelectFile ⟨[⟨"a", "/a", "x"⟩, ⟨"b", "/b", "y"⟩], 0⟩ 1 =
      ("y", ⟨[⟨"a", "/a", "x"⟩, ⟨"b", "/b", "y"⟩], 1⟩) :=
  ⟨(C10_selectFile_bounds ⟨[⟨"a", "/a", "x"⟩, ⟨"b", "/b", "y"⟩], 0⟩ 5).1
      (Or.inr (by decide)),
   (C10_selectFile_bounds ⟨[⟨"a", "/a", "x"⟩, ⟨"b", "/b", "y"⟩], 0⟩ 1).2
      (by decide) (by decide)⟩

/-- C6: `ReplaceFileContent` with a non-empty path matching an existing
entry and an empty name updates that entry's content in place, preserves
its prior name, and sets the current-selection index to that entry's
position (the entry is the first match; `l₁` are the entries before it,
none of which match). -/
theorem C6_replace_existing_preserves_name (a : App) (p c : String)
    (l₁ l₂ : List FileEntry) (f : FileEntry) (hp : p ≠ "")
    (hfiles : a.files = l₁ ++ f :: l₂) (hfp : f.path = p)
    (hl₁ : ∀ g ∈ l₁, g.path ≠ p) :
    ReplaceFileContent a p c "" =
      { files := l₁ ++ { f with content := c } :: l₂, currentIndex := (l₁.length : Int) } := by
  have hrf := replaceFirst_append p c "" f l₂ hfp l₁ hl₁
  simp only [ReplaceFileContent, hfiles, hrf]
  simp

/-- C6 witness: replacing `/tmp/a.html` (content `v1`, name `a`) with
content `v2` and empty name yields content `v2`, name `a` preserved, and
selection index 0. -/
theorem C6_replace_witness :
    ReplaceFileContent ⟨[⟨"a", "/tmp/a.html", "v1"⟩, ⟨"b", "/b", "y"⟩], 1⟩
        "/tmp/a.html" "v2" "" =
      ⟨[⟨"a", "/tmp/a.html", "v2"⟩, ⟨"b", "/b", "y"⟩], 0⟩ :=
  C6_replace_existing_preserves_name
    ⟨[⟨"a", "/tmp/a.html", "v1"⟩, ⟨"b", "/b", "y"⟩], 1⟩ "/tmp/a.html" "v2"
    [] [⟨"b", "/b", "y"⟩] ⟨"a", "/tmp/a.html", "v1"⟩ (by decide) rfl rfl (by simp)

/-- C1 counterexample: a name-sorted two-entry state, after a
`ReplaceFileContent` that renames the first entry in place to `"z"`, is no
longer sorted by name — the in-place branch does not re-sort. -/
theorem C1_rename_breaks_sort_counterexample :
    sortedByName [⟨"a", "/a", "x"⟩, ⟨"b", "/b", "y"⟩] ∧
    ReplaceFileContent ⟨[⟨"a", "/a", "x"⟩, ⟨"b", "/b", "y"⟩], 0⟩ "/a" "v2" "z" =
      ⟨[⟨"z", "/a", "v2"⟩, ⟨"b", "/b", "y"⟩], 0⟩ ∧
    ¬ sortedByName [⟨"z", "/a", "v2"⟩, ⟨"b", "/b", "y"⟩] := by
  decide

/-- C1 (amended): `AddFile` always leaves the entry list name-sorted, and a
`ReplaceFileContent` that appends (no entry matches the path) leaves it
name-sorted; but the in-place branch does not re-sort — it preserves entry
positions, so sortedness is preserved when the name argument is empty,
while an in-place rename may leave the list unsorted. -/
theorem C1_sorted_after_mutation (a : App) (e : FileEntry) (p c n : String) :
    sortedByName (AddFile a e).files ∧
    ((∀ f ∈ a.files, f.path ≠ p) → sortedByName (ReplaceFileContent a p c n).files) ∧
    (sortedByName a.files → sortedByName (ReplaceFileContent a p c "").files) := by
  refine ⟨sortFilesByName_sorted _, ?_, ?_⟩
  · intro h
    simp only [ReplaceFileContent, replaceFirst_none p c n a.files h]
    exact sortFilesByName_sorted _
  · intro hs
    cases hrec : replaceFirst p c "" a.files with
    | none =>
      simp only [ReplaceFileContent, hrec]
      exact sortFilesByName_sorted _
    | some pr =>
      obtain ⟨fs, i⟩ := pr
      simp only [ReplaceFileContent, hrec]
      rw [sortedByName_iff_names] at hs ⊢
      rwa [replaceFirst_names p c a.files fs i hrec]

/-- C1 witness: the three amended cases at concrete inputs — an append, a
replace that appends, and an in-place replace with empty name all leave
the list name-sorted. -/
theorem C1_sorted_witness :
    sortedByName (AddFile ⟨[⟨"b", "/b", "y"⟩], 0⟩ ⟨"a", "/a", "x"⟩).files ∧
    sortedByName (ReplaceFileContent ⟨[⟨"b", "/b", "y"⟩], 0⟩ "/a" "v2" "a").files ∧
    sortedByName
      (ReplaceFileContent ⟨[⟨"a", "/a", "x"⟩, ⟨"b", "/b", "y"⟩], 0⟩ "/a" "v2" "").files :=
  ⟨(C1_sorted_after_mutation ⟨[⟨"b", "/b", "y"⟩], 0⟩ ⟨"a", "/a", "x"⟩ "/a" "v2" "a").1,
   (C1_sorted_after_mutation ⟨[⟨"b", "/b", "y"⟩], 0⟩ ⟨"a", "/a", "x"⟩ "/a" "v2" "a").2.1
     (by decide),
   (C1_sorted_after_mutation ⟨[⟨"a", "/a", "x"⟩, ⟨"b", "/b", "y"⟩], 0⟩ ⟨"a", "/a", "x"⟩
       "/a" "v2" "").2.2 (by decide)⟩

/-- C2 counterexample: the matching condition in `ReplaceFileContent` is
plain path equality with no non-emptiness guard, so an empty-path call
against a state holding a stdin entry (path `""`) updates that entry in
place — one entry before and after, nothing appended — contradicting the
claim that an empty path always appends. -/
theorem C2_empty_path_counterexample :
    (ReplaceFileContent ⟨[⟨"stdin", "", "old"⟩], 0⟩ "" "new" "n").files =
      [⟨"n", "", "new"⟩] ∧
    (ReplaceFileContent ⟨[⟨"stdin", "", "old"⟩], 0⟩ "" "new" "n").files.length = 1 := by
  decide

/-- C2 (amended): `ReplaceFileContent` updates an existing entry in place
exactly when some entry's path equals the given path — empty or not (an
empty path matches a path-less stdin entry). In-place update keeps the
entry count and the path of every position; only when no entry's path
matches is a new entry appended (entry count grows by one). -/
theorem C2_replace_match_behavior (a : App) (p c n : String) :
    ((∃ f ∈ a.files, f.path = p) →
      (ReplaceFileContent a p c n).files.map FileEntry.path = a.files.map FileEntry.path ∧
      (ReplaceFileContent a p c n).files.length = a.files.length) ∧
    ((∀ f ∈ a.files, f.path ≠ p) →
      (ReplaceFileContent a p c n).files.length = a.files.length + 1) := by
  constructor
  · intro h
    have hsome := replaceFirst_isSome p c n a.files h
    cases hrec : replaceFirst p c n a.files with
    | none => rw [hrec] at hsome; simp at hsome
    | some pr =>
      obtain ⟨fs, i⟩ := pr
      have hpaths := replaceFirst_paths p c n a.files fs i hrec
      simp only [ReplaceFileContent, hrec]
      refine ⟨hpaths, ?_⟩
      have := congrArg List.length hpaths
      simpa using this
  · intro h
    simp only [ReplaceFileContent, replaceFirst_none p c n a.files h, sortFilesByName_length]
    simp

/-- C2 witness: a matching path (`"/a"`) is updated in place (paths and
count preserved); a non-matching path (`"/q"`) is appended (count grows
by one). -/
theorem C2_replace_match_witness :
    ((ReplaceFileContent ⟨[⟨"a", "/a", "x"⟩], 0⟩ "/a" "c" "n").files.map FileEntry.path =
        ["/a"] ∧
      (ReplaceFileContent ⟨[⟨"a", "/a", "x"⟩], 0⟩ "/a" "c" "n").files.length = 1) ∧
    (ReplaceFileContent ⟨[⟨"a", "/a", "x"⟩], 0⟩ "/q" "c" "n").files.length = 2 :=
  ⟨(C2_replace_match_behavior ⟨[⟨"a", "/a", "x"⟩], 0⟩ "/a" "c" "n").1
     ⟨⟨"a", "/a", "x"⟩, by decide, rfl⟩,
   (C2_replace_match_behavior ⟨[⟨"a", "/a", "x"⟩], 0⟩ "/q" "c" "n").2 (by decide)⟩

/-- C3 counterexample: a message whose cmd tag is `"bogus"` — neither
`"add-file"` nor `"replace"` — decodes successfully (the decoder validates
no tag), contradicting the claim that any other cmd tag is a decode
failure. -/
theorem C3_unknown_tag_decodes_counterexample :
    decodeIPCCommand (Json.obj [("cmd", Json.str "bogus")]) =
      some ⟨"bogus", ⟨"", "", ""⟩, "", "", ""⟩ ∧
    ("bogus" ≠ "add-file" ∧ "bogus" ≠ "replace") :=
  ⟨rfl, by decide⟩

/-- C3 (amended): decoding succeeds for any JSON object whose present
fields are well-typed, whatever the cmd tag (absent fields keep the zero
value); a message with an unknown cmd tag is a successfully decoded
command that the dispatcher silently ignores — a runtime dispatch miss
leaving the state unchanged, not a decode failure. -/
theorem C3_decode_dispatch (s : String) (a : App) (c : IPCCommand) :
    decodeIPCCommand (Json.obj [("cmd", Json.str s)]) =
      some ⟨s, ⟨"", "", ""⟩, "", "", ""⟩ ∧
    (c.cmd ≠ "add-file" → c.cmd ≠ "replace" → handleCommand a c = a) := by
  refine ⟨rfl, ?_⟩
  intro h1 h2
  unfold handleCommand
  split
  · simp_all
  · simp_all
  · rfl

/-- C3 witness: the tag `"open"` decodes fine and is then ignored by the
dispatcher, leaving a concrete state unchanged. -/
theorem C3_decode_dispatch_witness :
    decodeIPCCommand (Json.obj [("cmd", Json.str "open")]) =
      some ⟨"open", ⟨"", "", ""⟩, "", "", ""⟩ ∧
    handleCommand ⟨[⟨"a", "/a", "x"⟩], 0⟩ ⟨"open", ⟨"", "", ""⟩, "", "", ""⟩ =
      ⟨[⟨"a", "/a", "x"⟩], 0⟩ :=
  ⟨(C3_decode_dispatch "open" ⟨[⟨"a", "/a", "x"⟩], 0⟩
      ⟨"open", ⟨"", "", ""⟩, "", "", ""⟩).1,
   (C3_decode_dispatch "open" ⟨[⟨"a", "/a", "x"⟩], 0⟩
      ⟨"open", ⟨"", "", ""⟩, "", "", ""⟩).2 (by decide) (by decide)⟩

/-- C5: encoding any IPC command to its wire format and decoding it back
yields the original value (round-trip law for the command envelope). -/
theorem C5_encode_decode_roundtrip (c : IPCCommand) :
    decodeIPCCommand (encodeIPCCommand c) = some c :=
  rfl

/-- C4 counterexample: constructing a dispatcher at an address that holds
both a socket file and a live listener succeeds — the construction removes
the existing file and binds over it; the previous listener survives
(second entry of `listeners`) but loses its filesystem entry. -/
theorem C4_overtakes_counterexample :
    NewIPCServer "/tmp/s.sock" true ⟨["/tmp/s.sock"], ["/tmp/s.sock"]⟩ =
      Except.ok (⟨"/tmp/s.sock", true, false, true⟩,
        ⟨["/tmp/s.sock"], ["/tmp/s.sock", "/tmp/s.sock"]⟩) :=
  rfl

/-- C4 (amended): `NewIPCServer` never fails on an address in use — it
first removes any existing socket file and then binds, so construction
succeeds at every address, overtaking any live listener (which remains
running but unreachable at that path). -/
theorem C4_construction_always_binds (addr : String) (useT : Bool) (w : SockWorld) :
    NewIPCServer addr useT w =
      Except.ok (⟨addr, useT, false, useT⟩,
        ⟨addr :: w.sockFiles.filter (fun p => !(p == addr)), addr :: w.listeners⟩) := by
  have hmem : addr ∉ w.sockFiles.filter (fun p => !(p == addr)) := by
    simp [List.mem_filter]
  unfold NewIPCServer netListenUnix osRemove
  rw [if_neg hmem]

/-- C7: with a file present at the address, `TrySendToExisting` removes
that file and returns false exactly when the dial fails; after a
successful dial the world is left untouched — the file survives even a
failed write. -/
theorem C7_trySend_remove_asymmetry (connectOk writeOk : Bool) (addr : String)
    (w : SockWorld) (h : addr ∈ w.sockFiles) :
    (((TrySendToExisting connectOk writeOk addr w).1 = false ∧
        addr ∉ (TrySendToExisting connectOk writeOk addr w).2.sockFiles) ↔
      connectOk = false) ∧
    (connectOk = true → (TrySendToExisting connectOk writeOk addr w).2 = w) := by
  cases connectOk <;> cases writeOk <;>
    simp [TrySendToExisting, osRemove, List.mem_filter, h]

/-- C7 witness: a failed dial deletes the stale file and reports false; a
successful dial with a failed write leaves the file in place. -/
theorem C7_trySend_witness :
    (TrySendToExisting false true "/tmp/x.sock" ⟨["/tmp/x.sock"], []⟩).1 = false ∧
    "/tmp/x.sock" ∉
      (TrySendToExisting false true "/tmp/x.sock" ⟨["/tmp/x.sock"], []⟩).2.sockFiles ∧
    (TrySendToExisting true false "/tmp/x.sock" ⟨["/tmp/x.sock"], []⟩).2 =
      ⟨["/tmp/x.sock"], []⟩ :=
  ⟨(((C7_trySend_remove_asymmetry false true "/tmp/x.sock" ⟨["/tmp/x.sock"], []⟩
        (by decide)).1).mpr rfl).1,
   (((C7_trySend_remove_asymmetry false true "/tmp/x.sock" ⟨["/tmp/x.sock"], []⟩
        (by decide)).1).mpr rfl).2,
   (C7_trySend_remove_asymmetry true false "/tmp/x.sock" ⟨["/tmp/x.sock"], []⟩
        (by decide)).2 rfl⟩

/-- C8: on a not-yet-closed dispatcher, the first `Close` marks it closed,
stops the timeout timer, closes the listener, and removes the socket file;
closing again is a no-op (idempotence), and iterating `Close` any positive
number of times equals closing once, so no socket file remains at the
dispatcher's address after any number of calls. -/
theorem C8_close_idempotent (s : IPCServer) (w : SockWorld) (h : s.closed = false) :
    IPCServer.Close (IPCServer.Close (s, w)) = IPCServer.Close (s, w) ∧
    (IPCServer.Close (s, w)).1.closed = true ∧
    (IPCServer.Close (s, w)).1.timerActive = false ∧
    s.socketPath ∉ (IPCServer.Close (s, w)).2.sockFiles ∧
    s.socketPath ∉ (IPCServer.Close (s, w)).2.listeners ∧
    ∀ n : Nat, 1 ≤ n → IPCServer.Close^[n] (s, w) = IPCServer.Close (s, w) := by
  refine ⟨close_close s w, ?_, ?_, ?_, ?_, ?_⟩
  · simp [IPCServer.Close, h]
  · simp [IPCServer.Close, h]
  · simp [IPCServer.Close, h, List.mem_filter]
  · simp [IPCServer.Close, h, List.mem_filter]
  · intro n hn
    obtain ⟨m, rfl⟩ := Nat.exists_eq_add_of_le hn
    rw [Nat.add_comm]
    exact close_iterate s w m

/-- C8 witness: double-closing a concrete open dispatcher equals closing
it once, and the socket file is gone after the first close. -/
theorem C8_close_witness :
    IPCServer.Close (IPCServer.Close (⟨"/tmp/w.sock", false, false, false⟩,
        ⟨["/tmp/w.sock"], ["/tmp/w.sock"]⟩)) =
      IPCServer.Close (⟨"/tmp/w.sock", false, false, false⟩,
        ⟨["/tmp/w.sock"], ["/tmp/w.sock"]⟩) ∧
    "/tmp/w.sock" ∉ (IPCServer.Close (⟨"/tmp/w.sock", false, false, false⟩,
        ⟨["/tmp/w.sock"], ["/tmp/w.sock"]⟩)).2.sockFiles :=
  ⟨(C8_close_idempotent ⟨"/tmp/w.sock", false, false, false⟩
      ⟨["/tmp/w.sock"], ["/tmp/w.sock"]⟩ rfl).1,
   (C8_close_idempotent ⟨"/tmp/w.sock", false, false, false⟩
      ⟨["/tmp/w.sock"], ["/tmp/w.sock"]⟩ rfl).2.2.2.1⟩
